import Mathlib

/-!
A shallow embedding, in Lean 4, of the core of the incognito-chain-privacy
library: the Curve25519 scalar facade, the MLSAG ring-signature prover and
verifier (file `mlsag.go`, the cleaned-up variant with `dsCols`), and the
aggregated Bulletproof range-proof code (`bulletproof.go`, `utils.go`),
together with theorems settling the specification claims about them.

Modelling conventions, fixed once here:

* Scalars are elements of `ZMod l` with `l = 2^252 + 27742317777372353535851937790883648493`,
  exactly the canonical scalars of the implementation.
* The Edwards-point implementation is not part of the analysed sources; the
  spec explicitly allows "any complete, constant-time Edwards-group
  implementation of order l" (spec, Non-goals).  We therefore model the
  prime-order group by the additive group `ZMod l` itself, with base point
  `G = 1`, identity `0`, point addition `+` and scalar multiplication `*`.
  This is a genuine group of order `l`, so every statement proved about the
  hash-chain / linear-algebra structure of the protocols is faithful to the
  implementation's use of the group API.
* All hash functions (`HashToScalar`, `HashToPoint`,
  `HashToPointFromIndex`) and the second Pedersen generator `H` live in a
  `CryptoPrims` record, since their implementations are also outside the
  analysed sources.  Theorems about the control/data flow of the protocol
  code are proved for arbitrary primitives where possible, and evaluated at
  a small concrete instance (`cPrims`) for counterexample inputs.
* `RandomScalar()` calls are modelled by explicitly supplied streams of
  scalars: the prover becomes a pure function of its inputs and its entropy,
  exactly as the spec describes.
* Byte strings are `List Nat`; the 32-byte little-endian encoding shared by
  `Scalar.ToBytes` and point compression is modelled by `encode32`.
* Go runtime panics (out-of-range slice indexing) are modelled by the
  distinguished result `GoErr.indexOutOfRange`, kept separate from the
  `errors.New` values the code returns (`GoErr.goError msg`).
-/

set_option maxRecDepth 100000

/-- The order of the prime-order subgroup of Curve25519, from the spec. -/
def lEd : Nat := 2 ^ 252 + 27742317777372353535851937790883648493

instance : NeZero lEd := ⟨by decide⟩

/-- Canonical scalars of the implementation: the field `ZMod l`. -/
abbrev Scalar : Type := ZMod lEd

/-- Modelled from the spec: the Edwards-point implementation is outside the
analysed sources; any prime-order group of order `l` satisfies the spec, and
we take the additive group `ZMod l` (base point `G = 1`). -/
abbrev Point : Type := ZMod lEd

/-- Modelled from the spec: the 32-byte little-endian encoding used by both
`Scalar.ToBytes` and compressed point encoding. -/
def encode32 (x : ZMod lEd) : List Nat :=
  (List.range 32).map (fun i => x.val / 256 ^ i % 256)

theorem encode32_length (x : ZMod lEd) : (encode32 x).length = 32 := by
  simp [encode32]

/-- Outcome of a Go function: either a returned `error` value or a runtime
panic (out-of-range slice index). -/
inductive GoErr : Type
  | goError (msg : String)
  | indexOutOfRange
deriving DecidableEq, Repr

instance {ε α : Type} [DecidableEq ε] [DecidableEq α] : DecidableEq (Except ε α) := fun x y =>
  match x, y with
  | .error a, .error b => decidable_of_iff (a = b) (by simp)
  | .ok a, .ok b => decidable_of_iff (a = b) (by simp)
  | .error _, .ok _ => .isFalse (by simp)
  | .ok _, .error _ => .isFalse (by simp)

/-- Modelled from the spec: `ScalarMultBase(a) = G^a`; with `G = 1` this is
the scalar itself viewed as a point. -/
def scalarMultBase (a : Scalar) : Point := a * 1

/-- Modelled from the spec: `ScalarMult(P, a) = P^a`. -/
def scalarMult (P : Point) (a : Scalar) : Point := a * P

/-- Modelled from the spec: `AddPedersen(a, A, b, B) = A^a * B^b`. -/
def addPedersen (a : Scalar) (A : Point) (b : Scalar) (B : Point) : Point :=
  a * A + b * B

/-- Modelled from the spec: `MultiScalarMult({a_i}, {P_i}) = prod P_i^{a_i}`. -/
def multiScalarMult (s : List Scalar) (P : List Point) : Point :=
  (List.zipWith (fun a p => a * p) s P).sum

/-- Modelled from the spec: `PointValid` checks membership in the prime-order
group; in the `ZMod l` model every element is a valid group element. -/
def pointValid (_ : Point) : Bool := true

/-- Modelled from the spec: canonicity check for scalars; elements of
`ZMod l` are canonical by construction. -/
def scalarValid (_ : Scalar) : Bool := true

/-- `CompareScalar` from the scalar facade: big-endian lexicographic
comparison of the two 32-byte little-endian encodings (the Go loop runs from
byte 31 down to byte 0 and returns at the first difference). -/
def CompareScalar (a b : Scalar) : Int :=
  let ab := encode32 a
  let bb := encode32 b
  match (List.range 32).reverse.find? (fun i => ab.getD i 0 != bb.getD i 0) with
  | none => 0
  | some i => if ab.getD i 0 > bb.getD i 0 then 1 else -1

/-- `InnerProductProof` (type declared outside the analysed sources; layout
from the spec): `(L[i], R[i], a, b, P)`. -/
structure InnerProductProof : Type where
  L : List Point
  R : List Point
  a : Scalar
  b : Scalar
  p : Point
deriving DecidableEq, Repr

/-- `bulletproofParams` from `utils.go`: generator vectors `g`, `h`, the
point `u` and the cached challenge seed `cs`. -/
structure bulletproofParams : Type where
  g : List Point
  h : List Point
  u : Point
  cs : List Nat
deriving DecidableEq, Repr

/-- `BulletProof` from `bulletproof.go`. -/
structure BulletProof : Type where
  comValues : List Point
  a : Point
  s : Point
  t1 : Point
  t2 : Point
  tauX : Scalar
  tHat : Scalar
  mu : Scalar
  innerProductProof : InnerProductProof
deriving DecidableEq, Repr

/-- Modelled from the spec: the hash functions (`HashToScalar`,
`HashToPoint`, `HashToPointFromIndex` with its fixed domain-separation tag),
the second Pedersen generator `H`, and the inner-product verifier (whose
implementation is outside the analysed sources) are parameters of the
embedding. -/
structure CryptoPrims : Type where
  hashToScalar : List Nat → Scalar
  hashToPoint : List Nat → Point
  hashToPointFromIndex : Nat → Point
  Hbase : Point
  ippVerify : bulletproofParams → InnerProductProof → Bool

/-! ## MLSAG (`mlsag.go`, the `dsCols` variant) -/

/-- `RingSize = 8`. -/
def RingSize : Nat := 8

/-- `Mlsag_Witness`.  The Go `index` field is an `int` and may be negative,
so it is modelled by `Int`. -/
structure Mlsag_Witness : Type where
  privateKey : List Scalar
  index : Int
  dsCols : Nat
  publicKey : List (List Point)
  message : Point
deriving DecidableEq, Repr

/-- `Mlsag_Proof`. -/
structure Mlsag_Proof : Type where
  c0 : Scalar
  r : List (List Scalar)
  keyImage : List Point
  dsCols : Nat
  publicKey : List (List Point)
  message : Point
deriving DecidableEq, Repr

/-- `key_image(private, public) = ScalarMult(HashToPoint(public.ToBytes()), private)`. -/
def key_image (prims : CryptoPrims) (priv : Scalar) (pub : Point) : Point :=
  scalarMult (prims.hashToPoint (encode32 pub)) priv

/-- Element `publicKey[i][j]` of a key matrix (in-bounds whenever the
surrounding code has validated the matrix shape). -/
def pkAt (pk : List (List Point)) (i j : Nat) : Point := (pk.getD i []).getD j 0

/-- The byte string hashed by `Mlsag_Prove` for ring row `i ≠ index`
(source lines 116–129).  Note the source appends `wit.publicKey[index][j]`
— the PROVER'S OWN column — to the hash input at every row `i`, while the
`L`/`R` points are computed from row `i`. -/
def mlsagProveRowBytes (prims : CryptoPrims) (wit : Mlsag_Witness)
    (keyImage : List Point) (ri : Nat → Scalar) (idx i : Nat) (cOld : Scalar) : List Nat :=
  let m := wit.privateKey.length
  encode32 wit.message
    ++ (List.range wit.dsCols).flatMap (fun j =>
        let L := addPedersen (ri j) 1 cOld (pkAt wit.publicKey i j)
        let Hi := prims.hashToPoint (encode32 (pkAt wit.publicKey i j))
        let R := addPedersen (ri j) Hi cOld (keyImage.getD j 0)
        encode32 (pkAt wit.publicKey idx j) ++ encode32 L ++ encode32 R)
    ++ (List.range (m - wit.dsCols)).flatMap (fun j2 =>
        let j := wit.dsCols + j2
        let L := addPedersen (ri j) 1 cOld (pkAt wit.publicKey i j)
        encode32 (pkAt wit.publicKey idx j) ++ encode32 L)

/-- The byte string hashed by `Mlsag_Verify` for ring row `i`
(source lines 212–228): here the hash input contains `publicKey[i][j]`. -/
def mlsagVerifyRowBytes (prims : CryptoPrims) (proof : Mlsag_Proof)
    (i : Nat) (cOld : Scalar) : List Nat :=
  let m := (proof.publicKey.getD 0 []).length
  let ri := fun j => (proof.r.getD i []).getD j 0
  encode32 proof.message
    ++ (List.range proof.dsCols).flatMap (fun j =>
        let L := addPedersen (ri j) 1 cOld (pkAt proof.publicKey i j)
        let Hi := prims.hashToPoint (encode32 (pkAt proof.publicKey i j))
        let R := addPedersen (ri j) Hi cOld (proof.keyImage.getD j 0)
        encode32 (pkAt proof.publicKey i j) ++ encode32 L ++ encode32 R)
    ++ (List.range (m - proof.dsCols)).flatMap (fun j2 =>
        let j := proof.dsCols + j2
        let L := addPedersen (ri j) 1 cOld (pkAt proof.publicKey i j)
        encode32 (pkAt proof.publicKey i j) ++ encode32 L)

/-- The byte string hashed at the prover's own row (source lines 73–94):
`message ∥ {PK[index][j], g^{α_j}, HashToPoint(PK[index][j])^{α_j}}_{j<dsCols}
∥ {PK[index][j], g^{α_j}}_{j≥dsCols}`. -/
def mlsagInitBytes (prims : CryptoPrims) (wit : Mlsag_Witness)
    (alpha : Nat → Scalar) (idx : Nat) : List Nat :=
  let m := wit.privateKey.length
  encode32 wit.message
    ++ (List.range wit.dsCols).flatMap (fun j =>
        let Hi := prims.hashToPoint (encode32 (pkAt wit.publicKey idx j))
        encode32 (pkAt wit.publicKey idx j) ++ encode32 (scalarMultBase (alpha j))
          ++ encode32 (scalarMult Hi (alpha j)))
    ++ (List.range (m - wit.dsCols)).flatMap (fun j2 =>
        let j := wit.dsCols + j2
        encode32 (pkAt wit.publicKey idx j) ++ encode32 (scalarMultBase (alpha j)))

/-- `Mlsag_Prove`.  `alpha` models the `RandomScalar()` draws for the
prover's own row and `rnd i j` the draw for `r[i][j]` at rows `i ≠ index`.

Two pointer-aliasing facts of the Go source are reflected here:

* with a negative `index` the validation block (which only checks
  `index >= n`) is passed and the first access `wit.publicKey[index][j]`
  panics; this is the `GoErr.indexOutOfRange` branch;
* the statement `c0 = c_old` makes `c0` an alias of the scalar object
  `c_old`, and every later `c_old.Set(c)` overwrites it, so the `c0` stored
  in the returned proof is the FINAL challenge `c_index` (the one also used
  to close the ring), not the chain value recorded when `i` wrapped to `0`. -/
def Mlsag_Prove (prims : CryptoPrims) (wit : Mlsag_Witness)
    (alpha : Nat → Scalar) (rnd : Nat → Nat → Scalar) : Except GoErr Mlsag_Proof :=
  let m := wit.privateKey.length
  if m < 2 then .error (.goError "Mlsag_Prove length of private list must be at least 2")
  else if 8 ≤ wit.index then .error (.goError "Mlsag_Prove Index out of range")
  else if m < wit.dsCols then
    .error (.goError "Mlsag_Prove dsCols must not be greater than length of private key list")
  else if wit.publicKey.length ≠ 8 then
    .error (.goError "Mlsag_Prove cols of public key matrix must be equal RingSize")
  else if ¬ (wit.publicKey.all (fun row => row.length == m)) then
    .error (.goError "Mlsag_Prove rows of public key matrix must be equal length of private key list")
  else if wit.index < 0 then .error .indexOutOfRange
  else
    let idx := wit.index.toNat
    let keyImage := (List.range wit.dsCols).map (fun j =>
      let Hi := prims.hashToPoint (encode32 (pkAt wit.publicKey idx j))
      key_image prims (wit.privateKey.getD j 0) Hi)
    let c1 := prims.hashToScalar (mlsagInitBytes prims wit alpha idx)
    let rows := (List.range 7).map (fun k => (idx + 1 + k) % 8)
    let cFinal := rows.foldl (fun cOld i =>
      prims.hashToScalar (mlsagProveRowBytes prims wit keyImage (rnd i) idx i cOld)) c1
    let rMat := (List.range 8).map (fun i =>
      if i = idx then
        (List.range m).map (fun j => alpha j - cFinal * wit.privateKey.getD j 0)
      else
        (List.range m).map (fun j => rnd i j))
    .ok { c0 := cFinal, r := rMat, keyImage := keyImage,
          dsCols := wit.dsCols, publicKey := wit.publicKey, message := wit.message }

/-- `Mlsag_Verify`.  Returns the boolean verdict TOGETHER with the proof as
it stands after the call, because the source mutates it: `c_old := proof.c0`
aliases the proof's `c0` scalar, and each loop iteration's `c_old.Set(c)`
writes the freshly computed challenge through that alias.  The loop state is
the pair `(c, c_old)` of the two program variables; initially
`c = new(crypto.Scalar)` (zero) and `c_old` is the cell holding `proof.c0`. -/
def Mlsag_Verify (prims : CryptoPrims) (proof : Mlsag_Proof) :
    Except GoErr (Bool × Mlsag_Proof) :=
  match proof.publicKey with
  | [] => .error .indexOutOfRange
  | row0 :: _ =>
    let m := row0.length
    if m < 2 then .error (.goError "Mlsag_Verify length of private list must be at least 2")
    else if m < proof.dsCols then
      .error (.goError "Mlsag_Verify dsCols must not be greater than number of cols")
    else if proof.dsCols ≠ proof.keyImage.length then
      .error (.goError "Mlsag_Verify dsCols must be equal length of key image list")
    else if proof.publicKey.length ≠ 8 then
      .error (.goError "Mlsag_Verify cols of public key matrix must be equal RingSize")
    else if ¬ ((proof.publicKey.drop 1).all (fun row => row.length == m)) then
      .error (.goError "Mlsag_Verify rows of public key matrix must be equal number of cols")
    else if proof.r.length ≠ 8 then
      .error (.goError "Mlsag_Verify cols of r matrix must be equal RingSize")
    else if ¬ (proof.r.all (fun row => row.length == m)) then
      .error (.goError "Mlsag_Verify rows of r matrix must be equal number of cols")
    else if ¬ ((List.range proof.dsCols).all (fun j => pointValid (proof.keyImage.getD j 0))) then
      .error (.goError "Mlsag_Verify key image is invalid")
    else if ¬ (scalarValid proof.c0) then
      .error (.goError "Mlsag_Verify c0 is invalid")
    else
      let fin := (List.range 8).foldl (fun (st : Scalar × Scalar) i =>
        let cNew := prims.hashToScalar (mlsagVerifyRowBytes prims proof i st.2)
        (cNew, cNew)) ((0 : Scalar), proof.c0)
      .ok (CompareScalar fin.1 fin.2 == 0, { proof with c0 := fin.2 })

/-- The verification condition the spec describes: re-derive the challenge
chain starting from the proof's (original) `c0`, hashing exactly the byte
strings of the verifier's loop, and require the final challenge to equal
that original `c0`. -/
def mlsagSpecChain (prims : CryptoPrims) (proof : Mlsag_Proof) : Scalar :=
  (List.range 8).foldl (fun c i =>
    prims.hashToScalar (mlsagVerifyRowBytes prims proof i c)) proof.c0

/-- The spec's acceptance predicate for a shape-valid MLSAG proof. -/
def mlsagChainCloses (prims : CryptoPrims) (proof : Mlsag_Proof) : Prop :=
  mlsagSpecChain prims proof = proof.c0

/-! ## Bulletproof parameters and vector algebra (`utils.go`) -/

/-- `maxExp = 64`. -/
def maxExp : Nat := 64

/-- `maxNOut = 32`. -/
def maxNOut : Nat := 32

/-- `maxNOutParam = 256`; `maxCapacity = maxNOutParam * maxExp = 16384`. -/
def maxCapacity : Nat := 256 * 64

/-- The loop of `pad`: `tmp *= 2; if tmp >= num { return tmp }`, repeated.
The Go loop is unbounded; here it carries a fuel argument, and
`padLoop_ok` below shows that the fuel `pad` supplies is never exhausted. -/
def padLoop : Nat → Nat → Nat → Nat
  | 0, tmp, _ => tmp * 2
  | fuel + 1, tmp, num => if num ≤ tmp * 2 then tmp * 2 else padLoop fuel (tmp * 2) num

/-- `pad` from `utils.go`: `1` and `2` are returned unchanged, otherwise the
doubling loop starts from `tmp = 2` (so it never returns less than `4`). -/
def pad (num : Nat) : Nat :=
  if num = 1 then num else if num = 2 then num else padLoop num 2 num

/-- `powerVector(base, n)` from `utils.go`: `res[0] = 1` is written
unconditionally, so `n = 0` is a runtime panic (modelled by `none`);
otherwise `res[1] = base` and `res[i] = res[i-1] * base`. -/
def pvTail (base : Scalar) : Scalar → Nat → List Scalar
  | _, 0 => []
  | last, k + 1 => (last * base) :: pvTail base (last * base) k

def powerVector (base : Scalar) (n : Nat) : Option (List Scalar) :=
  if n = 0 then none
  else if n = 1 then some [1]
  else some (1 :: base :: pvTail base base (n - 2))

/-- `vectorAdd` from `utils.go`. -/
def vectorAdd (a b : List Scalar) : Except GoErr (List Scalar) :=
  if a.length ≠ b.length then .error (.goError "VectorAdd: Arrays not of the same length")
  else .ok (List.zipWith (fun x y => x + y) a b)

/-- `innerProduct` from `utils.go`: `res = 0`, then `res = a[i]*b[i] + res`. -/
def innerProduct (a b : List Scalar) : Except GoErr Scalar :=
  if a.length ≠ b.length then .error (.goError "InnerProduct: Arrays not of the same length")
  else .ok ((List.zip a b).foldl (fun res p => p.1 * p.2 + res) 0)

/-- `hadamardProduct` from `utils.go`. -/
def hadamardProduct (a b : List Scalar) : Except GoErr (List Scalar) :=
  if a.length ≠ b.length then .error (.goError "InnerProduct: Arrays not of the same length")
  else .ok (List.zipWith (fun x y => x * y) a b)

/-- `vectorAddScalar` from `utils.go`. -/
def vectorAddScalar (v : List Scalar) (s : Scalar) : List Scalar := v.map (fun x => x + s)

/-- `vectorMulScalar` from `utils.go`. -/
def vectorMulScalar (v : List Scalar) (s : Scalar) : List Scalar := v.map (fun x => x * s)

/-- `encodeVectors` from `utils.go`. -/
def encodeVectors (l r : List Scalar) (g h : List Point) : Except GoErr Point :=
  if l.length ≠ r.length ∨ g.length ≠ l.length ∨ h.length ≠ g.length then
    .error (.goError "invalid input")
  else .ok (multiScalarMult l g + multiScalarMult r h)

/-- `generateChallenge` from `utils.go`: hash the concatenation. -/
def generateChallenge (prims : CryptoPrims) (values : List (List Nat)) : Scalar :=
  prims.hashToScalar values.flatten

/-- `newBulletproofParams(m)` from `utils.go`: `g[i] = H2PFI(i)`,
`h[i] = H2PFI(i + maxCapacity)`, `u = H2PFI(2*maxCapacity)`, and
`cs = HashToScalar(g-bytes ∥ h-bytes ∥ u-bytes).ToBytesS()`. -/
def newBulletproofParams (prims : CryptoPrims) (m : Nat) : bulletproofParams :=
  let capacity := maxExp * m
  let g := (List.range capacity).map (fun i => prims.hashToPointFromIndex i)
  let h := (List.range capacity).map (fun i => prims.hashToPointFromIndex (i + maxCapacity))
  let u := prims.hashToPointFromIndex (2 * maxCapacity)
  { g := g, h := h, u := u,
    cs := encode32 (prims.hashToScalar
      (g.flatMap encode32 ++ h.flatMap encode32 ++ encode32 u)) }

/-- `BulletParam = newBulletproofParams(nOutPreComputeParam)` with
`nOutPreComputeParam = 32`. -/
def BulletParam (prims : CryptoPrims) : bulletproofParams := newBulletproofParams prims 32

/-- `SingleBulletParam = newBulletproofParams(1)`. -/
def SingleBulletParam (prims : CryptoPrims) : bulletproofParams := newBulletproofParams prims 1

/-- `getBulletproofParams(m)` from `utils.go`: a fresh view on the first
`m * maxExp` generators of `BulletParam`, sharing `u` and `cs`.  (The Go
code would panic for `m * 64 > 2048`; all uses in the claims have
`m ≤ 32`, where `take` below copies exactly `m * 64` generators.) -/
def getBulletproofParams (prims : CryptoPrims) (m : Nat) : bulletproofParams :=
  { u := (BulletParam prims).u, cs := (BulletParam prims).cs,
    g := (BulletParam prims).g.take (m * maxExp),
    h := (BulletParam prims).h.take (m * maxExp) }

/-- `setBulletproofParams(g, h)` from `utils.go`.  After the length check,
the loop body reads `BulletParam.g[i]` and `BulletParam.h[i]` — NOT the
supplied `g[i]`, `h[i]` — so the result is the `len(g)`-prefix of the global
parameter set, and `cs` is re-hashed over those copied generators.  Reading
`BulletParam.g[i]` for `i ≥ 2048` would panic. -/
def setBulletproofParams (prims : CryptoPrims) (g h : List Point) :
    Except GoErr bulletproofParams :=
  if g.length ≠ h.length then .error (.goError "invalid len param points")
  else if 2048 < g.length then .error .indexOutOfRange
  else
    let gs := (BulletParam prims).g.take g.length
    let hs := (BulletParam prims).h.take h.length
    .ok { g := gs, h := hs, u := (BulletParam prims).u,
          cs := encode32 (prims.hashToScalar
            (gs.flatMap encode32 ++ hs.flatMap encode32
              ++ encode32 (BulletParam prims).u)) }

/-- `EstimateAggBulletProofSize` from `utils.go`.  The Go code computes
`int(math.Log2(float64(maxExp * pad(nOutput))))`; since `64 * pad(k)` is a
power of two (provably, for every `k`), the floating-point logarithm is
exact and the truncation is the exact base-2 logarithm `Nat.log2`. -/
def EstimateAggBulletProofSize (nOutput : Nat) : Nat :=
  (nOutput + 2 * Nat.log2 (maxExp * pad nOutput) + 5) * 32 + 5 * 32 + 2

/-- Modelled from the spec: `ConvertUint64ToBinary(value, n)` bit-decomposes
`value` little-endian into `n` scalar bits (the implementation lives in the
crypto facade, outside the analysed sources). -/
def convertUint64ToBinary (value : Nat) (n : Nat) : List Scalar :=
  (List.range n).map (fun i => ((value >>> i) % 2 : Nat))

/-! ## Inner-product argument and range proof (`bulletproof.go`) -/

/-- `AddPedersenBase(v, r) = G^v * H^r`. -/
def addPedersenBase (prims : CryptoPrims) (v r : Scalar) : Point := v * 1 + r * prims.Hbase

/-- Modelled from the spec: the recursive inner-product prover (its
implementation is outside the analysed sources; spec §4.4).  Until `n = 1`:
split `(a, b)` and `(g, h)` in halves, emit
`L = encode(a_L, b_R; g_R, h_L) · u^{⟨a_L,b_R⟩}`,
`R = encode(a_R, b_L; g_L, h_R) · u^{⟨a_R,b_L⟩}`, derive
`x = challenge(cs, P, L, R)`, and fold.  The input length must be a power
of two; the fuel argument only bounds the recursion depth and is never
exhausted when the initial length is a power of two and the fuel is at
least that length. -/
def ippProve (prims : CryptoPrims) (cs : List Nat) :
    Nat → List Point → List Point → Point → List Scalar → List Scalar → Point →
    List Point → List Point → Except GoErr InnerProductProof
  | 0, _, _, _, _, _, _, _, _ => .error (.goError "inner product: fuel exhausted")
  | fuel + 1, g, h, u, a, b, p, accL, accR =>
    if a.length = 1 then
      .ok { L := accL.reverse, R := accR.reverse,
            a := a.getD 0 0, b := b.getD 0 0, p := p }
    else if a.length = 0 ∨ a.length % 2 ≠ 0 then
      .error (.goError "inner product: input length must be a power of two")
    else
      let nh := a.length / 2
      let aL := a.take nh
      let aR := a.drop nh
      let bL := b.take nh
      let bR := b.drop nh
      let gL := g.take nh
      let gR := g.drop nh
      let hL := h.take nh
      let hR := h.drop nh
      let cL := (List.zipWith (fun s t => s * t) aL bR).sum
      let cR := (List.zipWith (fun s t => s * t) aR bL).sum
      let Lp := multiScalarMult aL gR + multiScalarMult bR hL + cL * u
      let Rp := multiScalarMult aR gL + multiScalarMult bL hR + cR * u
      let x := generateChallenge prims [cs, encode32 p, encode32 Lp, encode32 Rp]
      let xInv := x⁻¹
      let g2 := List.zipWith (fun pl pr => xInv * pl + x * pr) gL gR
      let h2 := List.zipWith (fun pl pr => x * pl + xInv * pr) hL hR
      let a2 := List.zipWith (fun s t => x * s + xInv * t) aL aR
      let b2 := List.zipWith (fun s t => xInv * s + x * t) bL bR
      let p2 := (x * x) * Lp + p + (xInv * xInv) * Rp
      ippProve prims cs fuel g2 h2 u a2 b2 p2 (Lp :: accL) (Rp :: accR)

/-- Modelled from the spec (§6): the inner-product proof byte layout
`log2(n) : 1 byte ∥ L_1…L_log ∥ R_1…R_log ∥ a ∥ b ∥ P`. -/
def InnerProductProof.Bytes (ip : InnerProductProof) : List Nat :=
  [ip.L.length] ++ ip.L.flatMap encode32 ++ ip.R.flatMap encode32
    ++ encode32 ip.a ++ encode32 ip.b ++ encode32 ip.p

/-- `BulletProof.Bytes` from `bulletproof.go` (lines 111–135):
`len(V) : 1 byte ∥ V_1…V_m ∥ A ∥ S ∥ T1 ∥ T2 ∥ τ_x ∥ t̂ ∥ μ ∥ inner proof`.
(Proofs built by the embedding always have every field populated, so the
`IsNil` early return never fires.) -/
def BulletProof.Bytes (pf : BulletProof) : List Nat :=
  [pf.comValues.length] ++ pf.comValues.flatMap encode32
    ++ encode32 pf.a ++ encode32 pf.s ++ encode32 pf.t1 ++ encode32 pf.t2
    ++ encode32 pf.tauX ++ encode32 pf.tHat ++ encode32 pf.mu
    ++ pf.innerProductProof.Bytes

/-- `BulletWitness`: `values []uint64` and `rands []*Scalar`. -/
structure BulletWitness : Type where
  values : List Nat
  rands : List Scalar
deriving DecidableEq, Repr

/-- The `RandomScalar()` draws consumed by `Agg_Prove`, made explicit. -/
structure AggRand : Type where
  alpha : Scalar
  rho : Scalar
  tau1 : Scalar
  tau2 : Scalar
  sL : Nat → Scalar
  sR : Nat → Scalar

/-- `Agg_Prove` from `bulletproof.go` (lines 605–847).  Straight-line
translation; the running accumulators of the source (`zTmp`, which after
`j + 1` multiplications holds `z^(j+2)`) are written in closed form.  The
`deltaYZ` block of the prover (source lines 723–747) computes a value that
is never read afterwards and is omitted.  Reading `wit.rands[i]` for
`i < len(wit.values)` panics when `rands` is shorter than `values`. -/
def Agg_Prove (prims : CryptoPrims) (wit : BulletWitness) (rnd : AggRand) :
    Except GoErr BulletProof := do
  let numValue := wit.values.length
  if 32 < numValue then throw (.goError "Must less than maxNOut") else
  if wit.rands.length < numValue then throw .indexOutOfRange else
  let numValuePad := pad numValue
  let aggParam := getBulletproofParams prims numValuePad
  let values := wit.values ++ List.replicate (numValuePad - numValue) 0
  let rands := wit.rands.take numValue ++ List.replicate (numValuePad - numValue) (0 : Scalar)
  let comValues := (List.range numValue).map (fun i =>
    addPedersenBase prims ((values.getD i 0 : Nat) : Scalar) (rands.getD i 0))
  let aL := values.flatMap (fun v => convertUint64ToBinary v maxExp)
  let some twoVectorN := powerVector 2 maxExp | throw .indexOutOfRange
  let aR := aL.map (fun t => t - 1)
  let A0 ← encodeVectors aL aR aggParam.g aggParam.h
  let A := A0 + scalarMult prims.Hbase rnd.alpha
  let sLv := (List.range (maxExp * numValuePad)).map rnd.sL
  let sRv := (List.range (maxExp * numValuePad)).map rnd.sR
  let S0 ← encodeVectors sLv sRv aggParam.g aggParam.h
  let S := S0 + scalarMult prims.Hbase rnd.rho
  let y := generateChallenge prims [aggParam.cs, encode32 A, encode32 S]
  let z := generateChallenge prims [aggParam.cs, encode32 A, encode32 S, encode32 y]
  let zNeg := 0 - z
  let some yVector := powerVector y (maxExp * numValuePad) | throw .indexOutOfRange
  let l0 := vectorAddScalar aL zNeg
  let hada ← hadamardProduct yVector (vectorAddScalar aR z)
  let vectorSum := (List.range numValuePad).flatMap (fun j =>
    twoVectorN.map (fun t => t * z ^ (j + 2)))
  let r0 ← vectorAdd hada vectorSum
  let r1 ← hadamardProduct yVector sRv
  let ip3 ← innerProduct sLv r0
  let ip4 ← innerProduct l0 r1
  let t1s := ip3 + ip4
  let t2s ← innerProduct sLv r1
  let T1 := addPedersenBase prims t1s rnd.tau1
  let T2 := addPedersenBase prims t2s rnd.tau2
  let x := generateChallenge prims
    [aggParam.cs, encode32 A, encode32 S, encode32 T1, encode32 T2]
  let xSquare := x * x
  let lVector ← vectorAdd (vectorAddScalar aL zNeg) (vectorMulScalar sLv x)
  let tmpVector ← vectorAdd (vectorAddScalar aR z) (vectorMulScalar sRv x)
  let rV0 ← hadamardProduct yVector tmpVector
  let rVector ← vectorAdd rV0 vectorSum
  let tHat ← innerProduct lVector rVector
  let tauX := rnd.tau2 * xSquare + rnd.tau1 * x
    + ((List.range numValuePad).map (fun j => z ^ (j + 2) * rands.getD j 0)).sum
  let mu := rnd.rho * x + rnd.alpha
  let p0 ← encodeVectors lVector rVector aggParam.g aggParam.h
  let pW := p0 + scalarMult aggParam.u tHat
  let ipp ← ippProve prims aggParam.cs lVector.length
    aggParam.g aggParam.h aggParam.u lVector rVector pW [] []
  pure { comValues := comValues, a := A, s := S, t1 := T1, t2 := T2,
         tauX := tauX, tHat := tHat, mu := mu, innerProductProof := ipp }

/-- The re-derived challenge `y` of the aggregated verifier. -/
def aggY (prims : CryptoPrims) (proof : BulletProof) : Scalar :=
  generateChallenge prims [(getBulletproofParams prims (pad proof.comValues.length)).cs,
    encode32 proof.a, encode32 proof.s]

/-- The re-derived challenge `z` of the aggregated verifier. -/
def aggZ (prims : CryptoPrims) (proof : BulletProof) : Scalar :=
  generateChallenge prims [(getBulletproofParams prims (pad proof.comValues.length)).cs,
    encode32 proof.a, encode32 proof.s, encode32 (aggY prims proof)]

/-- The re-derived challenge `x` of the aggregated verifier. -/
def aggX (prims : CryptoPrims) (proof : BulletProof) : Scalar :=
  generateChallenge prims [(getBulletproofParams prims (pad proof.comValues.length)).cs,
    encode32 proof.a, encode32 proof.s, encode32 proof.t1, encode32 proof.t2]

/-- The straight-line prefix of `Agg_Verify` (lines 854–924) up to and
including the two sides of the first statement check.  The running
accumulator of the `deltaYZ` loop (`zTmp`, holding `z^(j+3)` when added)
is written in closed form; the `HPrime` loop of the source (lines 884–890)
computes a vector that `Agg_Verify` never reads and is omitted.  The three
`generateChallenge` lines of the source are the definitions `aggY`, `aggZ`,
`aggX` (note `aggParam.cs = (getBulletproofParams prims numValuePad).cs`). -/
def aggVerifyStatement1 (prims : CryptoPrims) (proof : BulletProof) :
    Except GoErr (Point × Point) := do
  let numValue := proof.comValues.length
  let numValuePad := pad numValue
  let tmpcmsValue := proof.comValues ++ List.replicate (numValuePad - numValue) (0 : Point)
  let some oneVector := powerVector 1 (maxExp * numValuePad) | throw .indexOutOfRange
  let some oneVectorN := powerVector 1 maxExp | throw .indexOutOfRange
  let some twoVectorN := powerVector 2 maxExp | throw .indexOutOfRange
  let y := aggY prims proof
  let z := aggZ prims proof
  let zSquare := z * z
  let x := aggX prims proof
  let xSquare := x * x
  let some yVector := powerVector y (maxExp * numValuePad) | throw .indexOutOfRange
  let ip1 ← innerProduct oneVector yVector
  let ip2 ← innerProduct oneVectorN twoVectorN
  let deltaYZ := (z - zSquare) * ip1
    - ((List.range numValuePad).map (fun j => z ^ (j + 3))).sum * ip2
  let left1 := addPedersenBase prims proof.tHat proof.tauX
  let some zVec := powerVector z numValuePad | throw .indexOutOfRange
  let expVector := vectorMulScalar zVec zSquare
  let right1 := scalarMult proof.t2 xSquare + addPedersen deltaYZ 1 x proof.t1
    + multiScalarMult expVector tmpcmsValue
  pure (left1, right1)

/-- `Agg_Verify` from `bulletproof.go` (lines 849–938). -/
def Agg_Verify (prims : CryptoPrims) (proof : BulletProof) : Except GoErr Bool :=
  if 32 < proof.comValues.length then .error (.goError "Must less than maxNOut")
  else
    match aggVerifyStatement1 prims proof with
    | .error e => .error e
    | .ok lr =>
      if lr.1 = lr.2 then
        if prims.ippVerify (getBulletproofParams prims (pad proof.comValues.length))
            proof.innerProductProof
        then .ok true
        else .error (.goError "verify aggregated range proof statement 2 failed")
      else .error (.goError "verify aggregated range proof statement 1 failed")

/-- `δ(y,z) = (z − z²)·⟨1^{64m}, y^{64m}⟩ − (∑_{k=1..m} z^{k+2})·⟨1^64, 2^64⟩`
(with `k` running 1-based over the `m = pad(numValue)` padded slots, so the
0-based exponents are `k + 3`). -/
def aggDeltaYZ (prims : CryptoPrims) (proof : BulletProof) : Scalar :=
  let mPad := pad proof.comValues.length
  let y := aggY prims proof
  let z := aggZ prims proof
  (z - z * z) * (∑ i ∈ Finset.range (maxExp * mPad), y ^ i)
    - (∑ k ∈ Finset.range mPad, z ^ (k + 3)) * (∑ i ∈ Finset.range maxExp, (2 : Scalar) ^ i)

/-- The claim's formulation of the first verifier equation:
`g^t̂ · h^τx = ∏_k V_k^{z^{k+1}} · g^{δ(y,z)} · T1^x · T2^{x²}` over the
padded commitment list (missing slots are the identity, i.e. `getD _ 0`),
with `y, z, x` the re-derived Fiat–Shamir challenges and `δ` as in
`aggDeltaYZ`. -/
def specAggCheck1 (prims : CryptoPrims) (proof : BulletProof) : Prop :=
  let mPad := pad proof.comValues.length
  let z := aggZ prims proof
  let x := aggX prims proof
  addPedersenBase prims proof.tHat proof.tauX
    = (∑ k ∈ Finset.range mPad, z ^ (k + 2) * proof.comValues.getD k 0)
      + aggDeltaYZ prims proof * 1 + x * proof.t1 + (x * x) * proof.t2

/-! ## Properties of `pad` and `powerVector` -/

theorem padLoop_spec : ∀ (fuel tmp num : Nat), num ≤ tmp * 2 ^ (fuel + 1) →
    ∃ s, s ≤ fuel ∧ padLoop fuel tmp num = tmp * 2 ^ (s + 1)
      ∧ num ≤ tmp * 2 ^ (s + 1)
      ∧ ∀ t, num ≤ tmp * 2 ^ (t + 1) → s ≤ t := by
  intro fuel
  induction fuel with
  | zero =>
    intro tmp num h
    exact ⟨0, le_refl 0, by simp [padLoop], by simpa using h, fun t _ => Nat.zero_le t⟩
  | succ f ih =>
    intro tmp num h
    by_cases hc : num ≤ tmp * 2
    · refine ⟨0, Nat.zero_le _, ?_, by simpa using hc, fun t _ => Nat.zero_le t⟩
      simp [padLoop, hc]
    · have h' : num ≤ tmp * 2 * 2 ^ (f + 1) := by
        have he : tmp * 2 ^ (f + 1 + 1) = tmp * 2 * 2 ^ (f + 1) := by ring
        rwa [he] at h
      obtain ⟨s, hs, heq, hle, hmin⟩ := ih (tmp * 2) num h'
      have he2 : tmp * 2 * 2 ^ (s + 1) = tmp * 2 ^ (s + 1 + 1) := by ring
      refine ⟨s + 1, Nat.succ_le_succ hs, ?_, by rw [← he2]; exact hle, ?_⟩
      · rw [show padLoop (f + 1) tmp num = padLoop f (tmp * 2) num by simp [padLoop, hc],
          heq, he2]
      · intro t ht
        cases t with
        | zero => exact absurd (by simpa using ht) hc
        | succ t' =>
          have ht' : num ≤ tmp * 2 * 2 ^ (t' + 1) := by
            have he3 : tmp * 2 ^ (t' + 1 + 1) = tmp * 2 * 2 ^ (t' + 1) := by ring
            rwa [he3] at ht
          exact Nat.succ_le_succ (hmin t' ht')

theorem pad_spec_ge3 (k : Nat) (hk : 3 ≤ k) :
    ∃ s, pad k = 2 ^ (s + 2) ∧ k ≤ 2 ^ (s + 2) ∧ ∀ t, k ≤ 2 ^ (t + 2) → s ≤ t := by
  have hfuel : k ≤ 2 * 2 ^ (k + 1) := by
    calc k ≤ 2 ^ k := Nat.le_of_lt (Nat.lt_two_pow k)
    _ ≤ 2 ^ (k + 1) := Nat.pow_le_pow_right (by norm_num) (Nat.le_succ k)
    _ ≤ 2 * 2 ^ (k + 1) := Nat.le_mul_of_pos_left _ (by norm_num)
  obtain ⟨s, _, heq, hle, hmin⟩ := padLoop_spec k 2 k hfuel
  have hpad : pad k = padLoop k 2 k := by
    simp only [pad, if_neg (by omega : k ≠ 1), if_neg (by omega : k ≠ 2)]
  have he : (2 : Nat) * 2 ^ (s + 1) = 2 ^ (s + 2) := by ring
  refine ⟨s, by rw [hpad, heq, he], by rwa [he] at hle, fun t ht => ?_⟩
  exact hmin t (by rw [show (2:Nat) * 2 ^ (t + 1) = 2 ^ (t + 2) by ring]; exact ht)

theorem le_pad (k : Nat) : k ≤ pad k := by
  by_cases h1 : k = 1
  · subst h1; decide
  by_cases h2 : k = 2
  · subst h2; decide
  by_cases h0 : k = 0
  · subst h0; decide
  obtain ⟨s, heq, hle, _⟩ := pad_spec_ge3 k (by omega)
  rw [heq]; exact hle

theorem pad_pos (k : Nat) : 1 ≤ pad k := by
  by_cases h1 : k = 1
  · subst h1; decide
  by_cases h2 : k = 2
  · subst h2; decide
  by_cases h0 : k = 0
  · subst h0; decide
  obtain ⟨s, heq, _, _⟩ := pad_spec_ge3 k (by omega)
  rw [heq]; exact Nat.one_le_two_pow

theorem pad_le_32 (k : Nat) (h : k ≤ 32) : pad k ≤ 32 := by
  by_cases h1 : k = 1
  · subst h1; decide
  by_cases h2 : k = 2
  · subst h2; decide
  by_cases h0 : k = 0
  · subst h0; decide
  obtain ⟨s, heq, _, hmin⟩ := pad_spec_ge3 k (by omega)
  have hs3 : s ≤ 3 := hmin 3 (by norm_num; omega)
  rw [heq]
  calc (2:Nat) ^ (s + 2) ≤ 2 ^ (3 + 2) := Nat.pow_le_pow_right (by norm_num) (by omega)
  _ = 32 := by norm_num

theorem pad_pow2 (k : Nat) (h : 1 ≤ k) : ∃ j, pad k = 2 ^ j := by
  by_cases h1 : k = 1
  · exact ⟨0, by subst h1; decide⟩
  by_cases h2 : k = 2
  · exact ⟨1, by subst h2; decide⟩
  obtain ⟨s, heq, _, _⟩ := pad_spec_ge3 k (by omega)
  exact ⟨s + 2, heq⟩

theorem pvTail_eq_map (base : Scalar) :
    ∀ (k t : Nat), pvTail base (base ^ (t + 1)) k
      = (List.range k).map (fun i => base ^ (t + i + 2)) := by
  intro k
  induction k with
  | zero => intro t; simp [pvTail]
  | succ k ih =>
    intro t
    have hstep : base ^ (t + 1) * base = base ^ (t + 1 + 1) := by ring
    rw [List.range_succ_eq_map]
    simp only [pvTail, hstep, List.map_cons, List.map_map]
    refine congrArg₂ List.cons (by ring_nf) ?_
    rw [ih (t + 1)]
    refine List.map_congr_left (fun i _ => ?_)
    simp [Function.comp]
    ring_nf

theorem powerVector_eq_map (base : Scalar) (n : Nat) (h : 1 ≤ n) :
    powerVector base n = some ((List.range n).map (fun i => base ^ i)) := by
  match n, h with
  | 1, _ => simp [powerVector, List.range_succ]
  | (k + 2), _ =>
    simp only [powerVector, if_neg (by omega : ¬ k + 2 = 0), if_neg (by omega : ¬ k + 2 = 1)]
    have htail : pvTail base base k = (List.range k).map (fun i => base ^ (i + 2)) := by
      have := pvTail_eq_map base k 0
      simpa using this
    have hr : (List.range (k + 2)).map (fun i => base ^ i)
        = 1 :: base :: (List.range k).map (fun i => base ^ (i + 2)) := by
      rw [show k + 2 = k + 1 + 1 from rfl, List.range_succ_eq_map, List.range_succ_eq_map]
      simp only [List.map_cons, List.map_map, pow_zero, pow_one]
      refine congrArg₂ List.cons rfl (congrArg₂ List.cons rfl ?_)
      refine List.map_congr_left (fun i _ => ?_)
      simp only [Function.comp_apply, Nat.succ_eq_add_one]
    rw [show k + 2 - 2 = k by omega, htail, hr]

/-! ## A concrete instance of the primitives, for counterexample evaluation -/

/-- A small computable instance of the abstract primitives, used to evaluate
the embedded code on concrete inputs: `hashToScalar` is the input length,
`hashToPoint` the input sum plus two, `hashToPointFromIndex i = i + 1`. -/
def cPrims : CryptoPrims where
  hashToScalar := fun bs => (bs.length : Scalar)
  hashToPoint := fun bs => ((bs.sum + 2 : Nat) : Point)
  hashToPointFromIndex := fun i => ((i : Nat) : Point) + 1
  Hbase := 2
  ippVerify := fun _ _ => true

/-- An all-zero entropy stream. -/
def zeroStream : Nat → Scalar := fun _ => 0

/-- An all-zero two-dimensional entropy stream. -/
def zeroStream2 : Nat → Nat → Scalar := fun _ _ => 0

/-- A shape-valid MLSAG proof (8×2 key matrix, `dsCols = 0`, canonical `c0`,
all responses zero) whose challenge chain does NOT close back to `c0 = 7`:
with `cPrims`, every recomputed challenge equals `160`. -/
def badProof : Mlsag_Proof where
  c0 := 7
  r := List.replicate 8 [0, 0]
  keyImage := []
  dsCols := 0
  publicKey := List.replicate 8 [1, 2]
  message := 3

/-- C1: the claim states that for shape-valid proofs `Mlsag_Verify` returns
`true` iff the challenge chain recomputed from the proof's original `c0`
closes back to that `c0`.  In the code, `c_old := proof.c0` aliases the
proof's `c0` scalar and `c_old.Set(c)` overwrites it every round, so the
final comparison `CompareScalar(c, proof.c0)` compares the last challenge
with itself: `Mlsag_Verify` accepts the shape-valid proof `badProof` even
though its recomputed chain (value `160` at every step under `cPrims`) does
not close back to `c0 = 7`.  In particular flipping bits of `c0` or `r`
cannot cause rejection. -/
theorem mlsag_verify_accepts_unclosed_chain :
    (Mlsag_Verify cPrims badProof).map Prod.fst = .ok true
      ∧ ¬ mlsagChainCloses cPrims badProof := by
  constructor
  · decide
  · unfold mlsagChainCloses
    decide

/-- C2: the claim states that `Mlsag_Verify` never mutates the proof, in
particular that `proof.c0` holds the same value after the call.  In the
code, `c_old := proof.c0` aliases the proof's `c0` and each `c_old.Set(c)`
writes the recomputed challenge through the alias: after verifying
`badProof` (whose `c0` is `7`), the proof's `c0` holds the final recomputed
challenge `160`. -/
theorem mlsag_verify_mutates_c0 :
    (Mlsag_Verify cPrims badProof).map (fun res => res.2.c0) = .ok (160 : Scalar)
      ∧ badProof.c0 = (7 : Scalar) ∧ ((160 : Scalar) ≠ 7) := by
  refine ⟨by decide, by decide, by decide⟩

/-- An honest MLSAG witness: `index = 2`, `m = 2`, `dsCols = 1`, and
`PK[2][j] = g^{sk_j}` (with `G = 1` and `sk = [1,1]`, column 2 is `[1,1]`). -/
def witC4 : Mlsag_Witness where
  privateKey := [1, 1]
  index := 2
  dsCols := 1
  publicKey := [[1, 2], [1, 2], [1, 1], [1, 2], [1, 2], [1, 2], [1, 2], [1, 2]]
  message := 3

/-- C4: the claim states `keyImage[j] = sk_j · hash_to_point(PK[index][j])`
with exactly one application of `hash_to_point`.  The code computes
`Hi = HashToPoint(PK[index][j])` and then calls `key_image(sk_j, Hi)`,
which hashes its argument AGAIN, yielding
`sk_j · hash_to_point(hash_to_point(PK[index][j]))`.  Under `cPrims` the
honest witness `witC4` yields `keyImage[0] = 5`, whereas the claimed value
`sk_0 · hash_to_point(PK[2][0])` is `3`. -/
theorem mlsag_prove_key_image_double_hash :
    (Mlsag_Prove cPrims witC4 zeroStream zeroStream2).map (fun p => p.keyImage)
        = .ok [(5 : Point)]
      ∧ scalarMult (cPrims.hashToPoint (encode32 (pkAt witC4.publicKey 2 0)))
          (witC4.privateKey.getD 0 0) = (3 : Point)
      ∧ ((5 : Point) ≠ (3 : Point)) := by
  refine ⟨by decide, by decide, by decide⟩

/-- A witness whose ring row 3 differs from the prover's column 2. -/
def witC5 : Mlsag_Witness where
  privateKey := [1, 1]
  index := 2
  dsCols := 1
  publicKey := [[1, 2], [1, 2], [1, 1], [4, 2], [1, 2], [1, 2], [1, 2], [1, 2]]
  message := 3

/-- The proof shape corresponding to `witC5` (same key matrix, message,
`dsCols`, key image, and all-zero responses), for comparing the byte strings
hashed by prover and verifier at row 3. -/
def proofC5 : Mlsag_Proof where
  c0 := 5
  r := List.replicate 8 [0, 0]
  keyImage := [9]
  dsCols := 1
  publicKey := [[1, 2], [1, 2], [1, 1], [4, 2], [1, 2], [1, 2], [1, 2], [1, 2]]
  message := 3

/-- C5: the claim states that at every ring row `i` the prover hashes the
row-`i` keys `PK[i][j]` (together with `L`, `R`), the same byte sequence the
verifier hashes.  The code's prover appends `PK[index][j]` instead
(source lines 123 and 128), so at row `i = 3 ≠ index = 2` — with identical
`c_old`, responses, and key image, hence identical `L` and `R` — the byte
string hashed by `Mlsag_Prove` differs from the one hashed by
`Mlsag_Verify`. -/
theorem mlsag_prove_hashes_own_column :
    mlsagProveRowBytes cPrims witC5 proofC5.keyImage (fun _ => 0) 2 3 5
      ≠ mlsagVerifyRowBytes cPrims proofC5 3 5 := by decide

/-- A shape-valid witness with `index = 9 ≥ 8`. -/
def witC6a : Mlsag_Witness where
  privateKey := [1, 1]
  index := 9
  dsCols := 1
  publicKey := List.replicate 8 [1, 2]
  message := 3

/-- A shape-valid witness with a negative `index`. -/
def witC6b : Mlsag_Witness where
  privateKey := [1, 1]
  index := -1
  dsCols := 1
  publicKey := List.replicate 8 [1, 2]
  message := 3

/-- C6 (counterexample): the claim states that EVERY index outside `[0, 8)`
— including negative ones — makes `Mlsag_Prove` return an input-shape
error.  The validation only checks `index >= n`; with `index = -1` the
witness passes validation and the prover's first `wit.publicKey[index][j]`
access is an out-of-range runtime panic, not a returned error. -/
theorem mlsag_prove_negative_index_panics :
    Mlsag_Prove cPrims witC6b zeroStream zeroStream2 = .error .indexOutOfRange := by
  decide

/-- C6 (amended): for a witness that passes the earlier shape checks,
`index ≥ 8` yields the input-shape error `"Mlsag_Prove Index out of range"`,
while a negative `index` is not rejected by validation and instead causes an
out-of-range panic at the public-key matrix access. -/
theorem mlsag_prove_index_bounds (prims : CryptoPrims) (wit : Mlsag_Witness)
    (alpha : Nat → Scalar) (rnd : Nat → Nat → Scalar)
    (hm : 2 ≤ wit.privateKey.length)
    (hds : wit.dsCols ≤ wit.privateKey.length)
    (hpk : wit.publicKey.length = 8)
    (hrow : wit.publicKey.all (fun row => row.length == wit.privateKey.length)) :
    (8 ≤ wit.index → Mlsag_Prove prims wit alpha rnd
        = .error (.goError "Mlsag_Prove Index out of range"))
      ∧ (wit.index < 0 → Mlsag_Prove prims wit alpha rnd = .error .indexOutOfRange) := by
  constructor
  · intro h8
    rw [Mlsag_Prove, if_neg (by omega : ¬ wit.privateKey.length < 2), if_pos h8]
  · intro hneg
    rw [Mlsag_Prove, if_neg (by omega : ¬ wit.privateKey.length < 2),
      if_neg (by omega : ¬ (8 : Int) ≤ wit.index),
      if_neg (by omega : ¬ wit.privateKey.length < wit.dsCols),
      if_neg (by omega : ¬ wit.publicKey.length ≠ 8),
      if_neg (by simpa using hrow), if_pos hneg]

theorem mlsag_prove_index_bounds_witness :
    Mlsag_Prove cPrims witC6a zeroStream zeroStream2
        = .error (.goError "Mlsag_Prove Index out of range")
      ∧ Mlsag_Prove cPrims witC6b zeroStream zeroStream2 = .error .indexOutOfRange :=
  ⟨(mlsag_prove_index_bounds cPrims witC6a zeroStream zeroStream2
      (by decide) (by decide) (by decide) (by decide)).1 (by decide),
   (mlsag_prove_index_bounds cPrims witC6b zeroStream zeroStream2
      (by decide) (by decide) (by decide) (by decide)).2 (by decide)⟩

/-- C3: the claim states that `setBulletproofParams(g, h)` returns a
parameter set whose generator vectors equal the SUPPLIED `g` and `h` (with
`cs` hashed over them), so that the single-proof code really substitutes
`h_i ← h_i^{y^{-i}}`.  The code's loop reads `BulletParam.g[i]` and
`BulletParam.h[i]` instead of the arguments, so the returned `h` is the
prefix of the global table — here `[16385]` under `cPrims` — and not the
supplied `[7]`. -/
theorem setBulletproofParams_ignores_supplied_generators :
    (setBulletproofParams cPrims [(1 : Point)] [(7 : Point)]).map (fun p => p.h)
        = .ok [(16385 : Point)]
      ∧ ([(16385 : Point)] : List Point) ≠ [(7 : Point)] := by
  refine ⟨by decide, by decide⟩

/-- C8: `pad(k)` returns the least power of two `≥ k` for every `k ≥ 3`,
and returns `k` itself for `k ∈ {1, 2}`. -/
theorem pad_least_power_of_two :
    pad 1 = 1 ∧ pad 2 = 2
      ∧ ∀ k, 3 ≤ k →
          (∃ j, pad k = 2 ^ j) ∧ k ≤ pad k ∧ ∀ j, k ≤ 2 ^ j → pad k ≤ 2 ^ j := by
  refine ⟨by decide, by decide, fun k hk => ?_⟩
  obtain ⟨s, heq, hle, hmin⟩ := pad_spec_ge3 k hk
  refine ⟨⟨s + 2, heq⟩, by rw [heq]; exact hle, fun j hj => ?_⟩
  have hj2 : 2 ≤ j := by
    by_contra hlt
    have hpow : (2 : Nat) ^ j ≤ 2 ^ 1 := Nat.pow_le_pow_right (by norm_num) (by omega)
    simp only [pow_one] at hpow
    omega
  obtain ⟨j', rfl⟩ : ∃ j', j = j' + 2 := ⟨j - 2, by omega⟩
  have hs := hmin j' hj
  rw [heq]
  exact Nat.pow_le_pow_right (by norm_num) (by omega)

theorem pad_least_power_of_two_witness :
    5 ≤ pad 5 ∧ pad 5 ≤ 2 ^ 3 :=
  ⟨(pad_least_power_of_two.2.2 5 (by decide)).2.1,
   (pad_least_power_of_two.2.2 5 (by decide)).2.2 3 (by decide)⟩

/-- C10: `powerVector(base, n)` writes `res[0]` unconditionally, so `n = 0`
is an index-out-of-range failure (`none`) rather than an empty vector, and
for every `n ≥ 1` the result is the vector with `i`-th entry `base^i`
(in `ZMod l`), for `i = 0 .. n-1`. -/
theorem powerVector_zero_fails_and_powers (base : Scalar) (n : Nat) (h : 1 ≤ n) :
    powerVector base 0 = none
      ∧ powerVector base n = some ((List.range n).map (fun i => base ^ i)) :=
  ⟨by simp [powerVector], powerVector_eq_map base n h⟩

theorem powerVector_zero_fails_and_powers_witness :
    powerVector (2 : Scalar) 0 = none
      ∧ powerVector (2 : Scalar) 3 = some [1, 2, 4] := by
  refine ⟨(powerVector_zero_fails_and_powers 2 3 (by decide)).1, ?_⟩
  rw [(powerVector_zero_fails_and_powers 2 3 (by decide)).2]
  decide

/-! ## List-level lemmas about the vector algebra -/

theorem except_bind_ok {ε α β : Type} (a : α) (f : α → Except ε β) :
    (Except.ok a : Except ε α) >>= f = f a := rfl

theorem except_pure_eq {ε α : Type} (a : α) : (pure a : Except ε α) = Except.ok a := rfl

theorem list_sum_range_map (f : Nat → Scalar) (n : Nat) :
    ((List.range n).map f).sum = ∑ i ∈ Finset.range n, f i := by
  induction n with
  | zero => simp
  | succ n ih =>
    rw [List.range_succ, List.map_append, List.sum_append, Finset.sum_range_succ, ih]
    simp

theorem zipWith_map_same {α β γ δ : Type} (f : β → γ → δ) (g : α → β) (h : α → γ) :
    ∀ l : List α, List.zipWith f (l.map g) (l.map h) = l.map (fun x => f (g x) (h x)) := by
  intro l
  induction l with
  | nil => rfl
  | cons x l ih => simp [ih]

theorem map_zip_mul : ∀ (a b : List Scalar),
    (List.zip a b).map (fun p => p.1 * p.2) = List.zipWith (fun x y => x * y) a b := by
  intro a
  induction a with
  | nil => intro b; rfl
  | cons x a ih =>
    intro b
    cases b with
    | nil => rfl
    | cons y b => simp [ih]

theorem foldl_mul_add_eq_sum (l : List (Scalar × Scalar)) :
    ∀ c : Scalar, l.foldl (fun res p => p.1 * p.2 + res) c
      = (l.map (fun p => p.1 * p.2)).sum + c := by
  induction l with
  | nil => intro c; simp
  | cons p l ih =>
    intro c
    simp only [List.foldl_cons, List.map_cons, List.sum_cons, ih]
    ring

theorem innerProduct_ok (a b : List Scalar) (h : a.length = b.length) :
    innerProduct a b = .ok ((List.zipWith (fun x y => x * y) a b).sum) := by
  simp only [innerProduct, if_neg (by omega : ¬ a.length ≠ b.length)]
  congr 1
  rw [foldl_mul_add_eq_sum, map_zip_mul]
  ring

theorem vectorAdd_ok (a b : List Scalar) (h : a.length = b.length) :
    vectorAdd a b = .ok (List.zipWith (fun x y => x + y) a b) := by
  simp only [vectorAdd, if_neg (by omega : ¬ a.length ≠ b.length)]

theorem hadamardProduct_ok (a b : List Scalar) (h : a.length = b.length) :
    hadamardProduct a b = .ok (List.zipWith (fun x y => x * y) a b) := by
  simp only [hadamardProduct, if_neg (by omega : ¬ a.length ≠ b.length)]

theorem getD_replicate_zero (r k : Nat) : (List.replicate r (0 : Point)).getD k 0 = 0 := by
  induction r generalizing k with
  | zero => simp
  | succ r ih =>
    cases k with
    | zero => simp
    | succ k =>
      simp only [List.replicate_succ, List.getD_cons_succ]
      exact ih k

theorem getD_append_replicate_zero (l : List Point) (r k : Nat) :
    (l ++ List.replicate r (0 : Point)).getD k 0 = l.getD k 0 := by
  induction l generalizing k with
  | nil => simp [getD_replicate_zero]
  | cons x l ih =>
    cases k with
    | zero => simp
    | succ k =>
      simp only [List.cons_append, List.getD_cons_succ]
      exact ih k

theorem getD_map_range (f : Nat → Scalar) :
    ∀ (n k : Nat), k < n → ((List.range n).map f).getD k 0 = f k := by
  intro n
  induction n generalizing f with
  | zero => intro k hk; omega
  | succ n ih =>
    intro k hk
    rw [List.range_succ_eq_map]
    cases k with
    | zero => simp
    | succ k =>
      simp only [List.map_cons, List.map_map, List.getD_cons_succ]
      have := ih (fun i => f (i + 1)) k (by omega)
      simpa [Function.comp, Nat.succ_eq_add_one] using this

theorem zipWith_mul_sum_getD : ∀ (s : List Scalar) (P : List Point),
    s.length = P.length →
      (List.zipWith (fun a p => a * p) s P).sum
        = ∑ k ∈ Finset.range s.length, s.getD k 0 * P.getD k 0 := by
  intro s
  induction s with
  | nil => intro P h; simp
  | cons x s ih =>
    intro P h
    cases P with
    | nil => simp at h
    | cons y P =>
      simp only [List.zipWith_cons_cons, List.sum_cons, List.length_cons]
      rw [Finset.sum_range_succ']
      simp only [List.getD_cons_succ, List.getD_cons_zero]
      rw [ih P (by simpa using h)]
      ring

theorem one_le_64_mul_pad (n : Nat) : 1 ≤ maxExp * pad n := by
  calc 1 ≤ pad n := pad_pos n
  _ ≤ maxExp * pad n := Nat.le_mul_of_pos_left _ (by norm_num [maxExp])

theorem aggVerifyStatement1_ok (prims : CryptoPrims) (proof : BulletProof) :
    aggVerifyStatement1 prims proof = .ok
      (addPedersenBase prims proof.tHat proof.tauX,
       (∑ k ∈ Finset.range (pad proof.comValues.length),
           aggZ prims proof ^ (k + 2) * proof.comValues.getD k 0)
         + aggDeltaYZ prims proof * 1 + aggX prims proof * proof.t1
         + (aggX prims proof * aggX prims proof) * proof.t2) := by
  have hpos : 1 ≤ pad proof.comValues.length := pad_pos _
  have h64 : 1 ≤ maxExp * pad proof.comValues.length := one_le_64_mul_pad _
  simp only [aggVerifyStatement1, powerVector_eq_map _ _ h64,
    powerVector_eq_map _ _ (by norm_num [maxExp] : 1 ≤ maxExp),
    powerVector_eq_map _ _ hpos,
    innerProduct_ok, List.length_map, List.length_range,
    except_bind_ok, except_pure_eq]
  refine congrArg Except.ok (congrArg₂ Prod.mk rfl ?_)
  have hip1 : (List.zipWith (fun x y => x * y)
      (List.map (fun i => (1:Scalar) ^ i) (List.range (maxExp * pad proof.comValues.length)))
      (List.map (fun i => aggY prims proof ^ i) (List.range (maxExp * pad proof.comValues.length)))).sum
      = ∑ i ∈ Finset.range (maxExp * pad proof.comValues.length), aggY prims proof ^ i := by
    rw [zipWith_map_same]
    rw [list_sum_range_map]
    exact Finset.sum_congr rfl (fun i _ => by rw [one_pow, one_mul])
  have hip2 : (List.zipWith (fun x y => x * y)
      (List.map (fun i => (1:Scalar) ^ i) (List.range maxExp))
      (List.map (fun i => (2:Scalar) ^ i) (List.range maxExp))).sum
      = ∑ i ∈ Finset.range maxExp, (2:Scalar) ^ i := by
    rw [zipWith_map_same, list_sum_range_map]
    exact Finset.sum_congr rfl (fun i _ => by rw [one_pow, one_mul])
  have hdsum : ((List.range (pad proof.comValues.length)).map
      (fun j => aggZ prims proof ^ (j + 3))).sum
      = ∑ k ∈ Finset.range (pad proof.comValues.length), aggZ prims proof ^ (k + 3) :=
    list_sum_range_map _ _
  have hmsm : multiScalarMult
      (vectorMulScalar ((List.range (pad proof.comValues.length)).map
        (fun i => aggZ prims proof ^ i)) (aggZ prims proof * aggZ prims proof))
      (proof.comValues ++ List.replicate
        (pad proof.comValues.length - proof.comValues.length) (0 : Point))
      = ∑ k ∈ Finset.range (pad proof.comValues.length),
          aggZ prims proof ^ (k + 2) * proof.comValues.getD k 0 := by
    unfold multiScalarMult vectorMulScalar
    rw [List.map_map]
    have hle : proof.comValues.length ≤ pad proof.comValues.length := le_pad _
    rw [zipWith_mul_sum_getD _ _ (by
      simp only [List.length_append, List.length_replicate, List.length_map, List.length_range]
      omega)]
    simp only [List.length_map, List.length_range]
    refine Finset.sum_congr rfl (fun k hk => ?_)
    rw [getD_append_replicate_zero]
    rw [getD_map_range _ _ _ (Finset.mem_range.mp hk)]
    simp only [Function.comp_apply]
    ring
  rw [hip1, hip2, hdsum, hmsm]
  unfold aggDeltaYZ scalarMult addPedersen
  ring

/-- C7: the first check of `Agg_Verify` passes exactly when
`g^t̂ · h^τx = ∏_k V_k^{z^{k+1}} · g^{δ(y,z)} · T1^x · T2^{x²}` (over the
padded commitment list, identity for missing slots, `δ` and the challenges
as in `specAggCheck1`); and when that equation fails, `Agg_Verify` rejects
with the statement-1 error. -/
theorem agg_verify_first_check (prims : CryptoPrims) (proof : BulletProof)
    (h : proof.comValues.length ≤ 32) :
    (∃ lr, aggVerifyStatement1 prims proof = .ok lr
        ∧ (lr.1 = lr.2 ↔ specAggCheck1 prims proof))
      ∧ (¬ specAggCheck1 prims proof →
          Agg_Verify prims proof
            = .error (.goError "verify aggregated range proof statement 1 failed")) := by
  refine ⟨⟨_, aggVerifyStatement1_ok prims proof, Iff.rfl⟩, fun hn => ?_⟩
  unfold Agg_Verify
  rw [if_neg (by omega : ¬ 32 < proof.comValues.length), aggVerifyStatement1_ok prims proof]
  exact if_neg (fun hEq => hn hEq)

/-- A small aggregated proof shape used to instantiate
`agg_verify_first_check`. -/
def pf7 : BulletProof where
  comValues := [4]
  a := 1
  s := 2
  t1 := 3
  t2 := 4
  tauX := 5
  tHat := 6
  mu := 7
  innerProductProof := { L := [], R := [], a := 0, b := 0, p := 0 }

theorem agg_verify_first_check_witness :
    (∃ lr, aggVerifyStatement1 cPrims pf7 = .ok lr
        ∧ (lr.1 = lr.2 ↔ specAggCheck1 cPrims pf7))
      ∧ (¬ specAggCheck1 cPrims pf7 →
          Agg_Verify cPrims pf7
            = .error (.goError "verify aggregated range proof statement 1 failed")) :=
  agg_verify_first_check cPrims pf7 (by decide)

theorem encodeVectors_ok (l r : List Scalar) (g h : List Point)
    (h1 : l.length = r.length) (h2 : g.length = l.length) (h3 : h.length = g.length) :
    encodeVectors l r g h = .ok (multiScalarMult l g + multiScalarMult r h) := by
  have hc : ¬ (l.length ≠ r.length ∨ g.length ≠ l.length ∨ h.length ≠ g.length) := by
    push_neg
    exact ⟨h1, h2, h3⟩
  simp only [encodeVectors, if_neg hc]

theorem length_flatMap_const {α β : Type} (f : α → List β) (c : Nat)
    (hf : ∀ x, (f x).length = c) : ∀ l : List α, (l.flatMap f).length = l.length * c := by
  intro l
  induction l with
  | nil => simp
  | cons x l ih =>
    simp only [List.flatMap_cons, List.length_append, List.length_cons, hf, ih]
    ring

theorem convertUint64ToBinary_length (v n : Nat) : (convertUint64ToBinary v n).length = n := by
  simp [convertUint64ToBinary]

theorem ippProve_ok (prims : CryptoPrims) (cs : List Nat) :
    ∀ (k fuel : Nat) (g h : List Point) (u p : Point) (a b : List Scalar)
      (accL accR : List Point),
      a.length = 2 ^ k → b.length = 2 ^ k → g.length = 2 ^ k → h.length = 2 ^ k →
      k + 1 ≤ fuel →
      ∃ pr, ippProve prims cs fuel g h u a b p accL accR = .ok pr
        ∧ pr.L.length = accL.length + k ∧ pr.R.length = accR.length + k := by
  intro k
  induction k with
  | zero =>
    intro fuel g h u p a b accL accR ha hb hg hh hfuel
    obtain ⟨f, rfl⟩ : ∃ f, fuel = f + 1 := ⟨fuel - 1, by omega⟩
    have heq : ippProve prims cs (f + 1) g h u a b p accL accR
        = .ok { L := accL.reverse, R := accR.reverse,
                a := a.getD 0 0, b := b.getD 0 0, p := p } := by
      simp only [ippProve, if_pos (by simpa using ha)]
    exact ⟨_, heq, by simp, by simp⟩
  | succ k ih =>
    intro fuel g h u p a b accL accR ha hb hg hh hfuel
    obtain ⟨f, rfl⟩ : ∃ f, fuel = f + 1 := ⟨fuel - 1, by omega⟩
    have h2k : 1 ≤ (2:Nat) ^ k := Nat.one_le_two_pow
    have hp2 : (2:Nat) ^ (k + 1) = 2 * 2 ^ k := by ring
    have hne1 : ¬ a.length = 1 := by omega
    have hnz : ¬ (a.length = 0 ∨ a.length % 2 ≠ 0) := by omega
    have hnh : a.length / 2 = 2 ^ k := by omega
    have hzipS : ∀ (fn : Scalar → Scalar → Scalar) (l : List Scalar), l.length = 2 ^ (k + 1) →
        (List.zipWith fn (l.take (a.length / 2)) (l.drop (a.length / 2))).length = 2 ^ k := by
      intro fn l hl
      rw [List.length_zipWith, List.length_take, List.length_drop, hnh, hl]
      omega
    have hzipP : ∀ (fn : Point → Point → Point) (l : List Point), l.length = 2 ^ (k + 1) →
        (List.zipWith fn (l.take (a.length / 2)) (l.drop (a.length / 2))).length = 2 ^ k := by
      intro fn l hl
      rw [List.length_zipWith, List.length_take, List.length_drop, hnh, hl]
      omega
    simp only [ippProve, if_neg hne1, if_neg hnz]
    refine Exists.imp (fun pr hh2 => ⟨hh2.1, ?_, ?_⟩)
      (ih f _ _ u _ _ _ _ _ (hzipS _ a ha) (hzipS _ b hb) (hzipP _ g hg) (hzipP _ h hh)
        (by omega))
    · have := hh2.2.1
      simp only [List.length_cons] at this
      omega
    · have := hh2.2.2
      simp only [List.length_cons] at this
      omega

theorem length_flatMap_map_const {α β γ : Type} (l : List α) (mm : List β) (f : α → β → γ) :
    (l.flatMap (fun j => mm.map (f j))).length = l.length * mm.length := by
  induction l with
  | nil => simp
  | cons x l ih =>
    simp only [List.flatMap_cons, List.length_append, List.length_map, List.length_cons, ih]
    ring

theorem vectorAddScalar_length (v : List Scalar) (s : Scalar) :
    (vectorAddScalar v s).length = v.length := by
  simp [vectorAddScalar]

theorem vectorMulScalar_length (v : List Scalar) (s : Scalar) :
    (vectorMulScalar v s).length = v.length := by
  simp [vectorMulScalar]

theorem ippProve_bind_ok {β : Type} (prims : CryptoPrims) (cs : List Nat)
    (k fuel : Nat) (g h : List Point) (u p : Point) (a b : List Scalar)
    (cont : InnerProductProof → Except GoErr β) (Q : β → Prop)
    (ha : a.length = 2 ^ k) (hb : b.length = 2 ^ k) (hg : g.length = 2 ^ k)
    (hh : h.length = 2 ^ k) (hfuel : k + 1 ≤ fuel)
    (hcont : ∀ pr : InnerProductProof, pr.L.length = k → pr.R.length = k →
      ∃ out, cont pr = .ok out ∧ Q out) :
    ∃ out, ((ippProve prims cs fuel g h u a b p [] []) >>= cont) = .ok out ∧ Q out := by
  obtain ⟨pr, hpr, hL, hR⟩ := ippProve_ok prims cs k fuel g h u p a b [] [] ha hb hg hh hfuel
  rw [hpr, except_bind_ok]
  exact hcont pr (by simpa using hL) (by simpa using hR)

theorem Agg_Prove_ok (prims : CryptoPrims) (wit : BulletWitness) (rnd : AggRand)
    (h1 : 1 ≤ wit.values.length) (h32 : wit.values.length ≤ 32)
    (hr : wit.values.length ≤ wit.rands.length) :
    ∃ pf, Agg_Prove prims wit rnd = .ok pf
      ∧ pf.comValues.length = wit.values.length
      ∧ pf.innerProductProof.L.length = Nat.log2 (maxExp * pad wit.values.length)
      ∧ pf.innerProductProof.R.length = Nat.log2 (maxExp * pad wit.values.length) := by
  obtain ⟨j, hpadj⟩ := pad_pow2 wit.values.length h1
  have hK : (2 : Nat) ^ (6 + j) = 64 * 2 ^ j := by rw [pow_add]; norm_num
  have hlog : Nat.log2 (maxExp * pad wit.values.length) = 6 + j := by
    have hME : maxExp * pad wit.values.length = 2 ^ (6 + j) := by
      rw [hpadj, hK, maxExp]
    rw [hME, Nat.log2_eq_log_two, Nat.log_pow (by norm_num)]
  have hple := le_pad wit.values.length
  have hp32 := pad_le_32 _ h32
  have hjlt : j < 2 ^ j := Nat.lt_two_pow j
  have hBPg : (BulletParam prims).g.length = maxExp * 32 := by
    simp [BulletParam, newBulletproofParams]
  have hBPh : (BulletParam prims).h.length = maxExp * 32 := by
    simp [BulletParam, newBulletproofParams]
  have hiadd : wit.values.length + (pad wit.values.length - wit.values.length)
      = pad wit.values.length := by omega
  have hminR : min wit.values.length wit.rands.length = wit.values.length := by omega
  have hminTake : min (pad wit.values.length * maxExp) (maxExp * 32)
      = pad wit.values.length * maxExp := by
    simp only [maxExp]
    omega
  have hcommME : maxExp * pad wit.values.length = pad wit.values.length * maxExp :=
    Nat.mul_comm _ _
  have hppME : 1 ≤ pad wit.values.length * maxExp := by
    have := pad_pos wit.values.length
    simp only [maxExp]
    omega
  rw [Agg_Prove]
  rw [if_neg (by omega : ¬ 32 < wit.values.length),
    if_neg (by omega : ¬ wit.rands.length < wit.values.length)]
  simp only [getBulletproofParams,
    powerVector_eq_map _ _ (by norm_num [maxExp] : 1 ≤ maxExp),
    powerVector_eq_map _ _ (one_le_64_mul_pad wit.values.length),
    powerVector_eq_map _ _ hppME,
    encodeVectors_ok, vectorAdd_ok, hadamardProduct_ok, innerProduct_ok,
    except_bind_ok, except_pure_eq,
    List.length_zipWith, List.length_map, List.length_range, List.length_append,
    List.length_replicate, List.length_take, List.length_drop, List.map_map,
    vectorAddScalar_length, vectorMulScalar_length,
    length_flatMap_const (fun v => convertUint64ToBinary v maxExp) maxExp
      (fun v => convertUint64ToBinary_length v maxExp),
    length_flatMap_map_const,
    hBPg, hBPh, hiadd, hminR, hminTake, hcommME, min_self]
  refine ippProve_bind_ok prims _ (6 + j) _ _ _ _ _ _ _ _ _ ?_ ?_ ?_ ?_ ?_ ?_
  · simp only [List.length_zipWith, vectorAddScalar_length, vectorMulScalar_length,
      List.length_map, List.length_range,
      length_flatMap_const (fun v => convertUint64ToBinary v maxExp) maxExp
        (fun v => convertUint64ToBinary_length v maxExp),
      List.length_append, List.length_replicate, hiadd, min_self]
    simp only [maxExp] at hK ⊢
    omega
  · simp only [List.length_zipWith, vectorAddScalar_length, vectorMulScalar_length,
      List.length_map, List.length_range, List.map_map, length_flatMap_map_const,
      length_flatMap_const (fun v => convertUint64ToBinary v maxExp) maxExp
        (fun v => convertUint64ToBinary_length v maxExp),
      List.length_append, List.length_replicate, hiadd, min_self]
    simp only [maxExp] at hK ⊢
    omega
  · simp only [List.length_take, hBPg]
    simp only [maxExp] at hK ⊢
    omega
  · simp only [List.length_take, hBPh]
    simp only [maxExp] at hK ⊢
    omega
  · simp only [maxExp] at hK ⊢
    omega
  · intro pr hL hR
    have hlog2 : Nat.log2 (pad wit.values.length * maxExp) = 6 + j := by
      rw [Nat.mul_comm]
      exact hlog
    refine ⟨_, rfl, ?_, ?_, ?_⟩
    · simp
    · rw [hlog2]
      simpa using hL
    · rw [hlog2]
      simpa using hR

/-- C9: for every witness of `m` values (`1 ≤ m ≤ 32`, with its blindings),
`Agg_Prove` succeeds and the byte string produced by `Bytes` has length
exactly `EstimateAggBulletProofSize m`, which equals
`(m + 2·log2(64·pad m) + 5)·32 + 5·32 + 2` (64·pad m is a power of two, so
the ceiling of the base-2 logarithm is `Nat.log2` itself). -/
theorem agg_prove_serialized_length (prims : CryptoPrims) (wit : BulletWitness) (rnd : AggRand)
    (m : Nat) (hv : wit.values.length = m) (hrnd : wit.rands.length = m)
    (h1 : 1 ≤ m) (h32 : m ≤ 32) :
    (∃ pf, Agg_Prove prims wit rnd = .ok pf
        ∧ (BulletProof.Bytes pf).length = EstimateAggBulletProofSize m)
      ∧ EstimateAggBulletProofSize m
          = (m + 2 * Nat.log2 (maxExp * pad m) + 5) * 32 + 5 * 32 + 2 := by
  refine ⟨?_, rfl⟩
  obtain ⟨pf, hpf, hcom, hL, hR⟩ :=
    Agg_Prove_ok prims wit rnd (by omega) (by omega) (by omega)
  refine ⟨pf, hpf, ?_⟩
  simp only [BulletProof.Bytes, InnerProductProof.Bytes, List.length_append, List.length_cons,
    List.length_nil, encode32_length, length_flatMap_const encode32 32 encode32_length,
    hcom, hv] at hL hR ⊢
  simp only [hL, hR, EstimateAggBulletProofSize]
  omega

/-- A one-value bullet witness for instantiating `agg_prove_serialized_length`. -/
def witC9 : BulletWitness where
  values := [5]
  rands := [3]

/-- A concrete entropy record for `Agg_Prove`. -/
def rndC9 : AggRand where
  alpha := 1
  rho := 2
  tau1 := 3
  tau2 := 4
  sL := fun _ => 0
  sR := fun _ => 0

theorem agg_prove_serialized_length_witness :
    (∃ pf, Agg_Prove cPrims witC9 rndC9 = .ok pf
        ∧ (BulletProof.Bytes pf).length = EstimateAggBulletProofSize 1)
      ∧ EstimateAggBulletProofSize 1
          = (1 + 2 * Nat.log2 (maxExp * pad 1) + 5) * 32 + 5 * 32 + 2 :=
  agg_prove_serialized_length cPrims witC9 rndC9 1 (by decide) (by decide)
    (by decide) (by decide)
